import Mathlib

/-!
Shallow embedding of the spreadsheet core (sheet.cpp, cell.cpp, formula.cpp).

Conventions of the embedding:
* A position is a pair (row, col) of naturals; validity mirrors
  Position.IsValid with the bounds MAX_ROWS = MAX_COLS = 16384 given by the
  spec (common.h is not part of the sources).
* The formula AST layer (FormulaAST.h) is external to the sources.  Its
  pieces are modelled from the spec where needed: an expression fragment
  with numbers, cell references and addition; evaluation with the numeric
  coercion of cell values; canonical printing; and the ordered reference
  list.  Doubles are modelled as integers, which is exact on every value the
  claims exercise.
* unordered_set fields are modelled as lists with set-like insert
  (no-op when present) and erase (removes every occurrence); membership is
  the observable notion.
* assert(...) in the C++ is modelled as a guard: the operation does nothing
  when the asserted precondition fails.  The one assert inside
  Sheet::SetCell that reads the old cell (line 164) is modelled by taking
  an empty reference list when the slot is absent.
* Exceptions are modelled by returning (some error, state-at-throw): the
  C++ sheet is mutated in place, so the state at the throw point is the
  state the caller observes afterwards.
* The rescan loop of Sheet::ClearCell indexes cells_[r] without a bounds
  check on r.  The embedding reads rows through an explicit out-of-range
  branch: the flag returned by clearCellFull records whether that branch
  was hit, and the model continues with an empty row in that case.
-/

abbrev Pos := Nat × Nat

def MAX_ROWS : Nat := 16384

def MAX_COLS : Nat := 16384

def validPos (p : Pos) : Bool := decide (p.1 < MAX_ROWS) && decide (p.2 < MAX_COLS)

/-- Modelled from the spec: FORMULA_SIGN from common.h. -/
def FORMULA_SIGN : Char := Char.ofNat 61

/-- Modelled from the spec: ESCAPE_SIGN (apostrophe) from common.h. -/
def ESCAPE_SIGN : Char := Char.ofNat 39

/-- Modelled from the spec: the formula AST fragment the claims exercise
(numbers, cell references, addition). -/
inductive Expr where
  | num (n : Int)
  | ref (p : Pos)
  | add (a b : Expr)
deriving DecidableEq

/-- Cell content: the tagged variant behind CellImpl (EmptyImpl, TextImpl,
FormulaImpl). -/
inductive Content where
  | empty
  | text (s : String)
  | formula (e : Expr)
deriving DecidableEq

/-- A cell value: string, number, or formula error (CellInterface::Value). -/
inductive Value where
  | s (v : String)
  | n (v : Int)
  | err
deriving DecidableEq

/-- A Cell: content plus the mutable value cache (cell.h). -/
structure CellV where
  content : Content
  cache : Option Value
deriving DecidableEq

def emptyCellV : CellV := CellV.mk Content.empty none

abbrev Row := List (Option CellV)

abbrev Grid := List Row

/-- TextImpl::GetValue: strip a leading ESCAPE_SIGN (text_.substr(1)), else
the text itself. -/
def textImplValue (s : String) : Value :=
  if s ≠ "" ∧ s.data.head? = some ESCAPE_SIGN then Value.s (String.mk (s.data.drop 1))
  else Value.s s

/-- TextImpl::GetText. -/
def textImplGetText (s : String) : String := s

/-- Modelled from the spec: canonical printing of the AST
(FormulaAST::PrintFormula), on the modelled fragment. -/
def colLetters : Nat → Nat → List Char
  | 0, _ => []
  | fuel + 1, m =>
    if m = 0 then []
    else colLetters fuel ((m - 1) / 26) ++ [Char.ofNat (65 + (m - 1) % 26)]

def posToName (p : Pos) : String := String.mk (colLetters 8 (p.2 + 1)) ++ toString (p.1 + 1)

def printExpr : Expr → String
  | Expr.num n => toString n
  | Expr.ref p => posToName p
  | Expr.add a b => printExpr a ++ "+" ++ printExpr b

/-- FormulaImpl::GetText / EmptyImpl::GetText / TextImpl::GetText, through
Cell::GetText. -/
def contentGetText : Content → String
  | Content.empty => ""
  | Content.text s => s
  | Content.formula e => FORMULA_SIGN.toString ++ printExpr e

def cellGetText (cv : CellV) : String := contentGetText cv.content

/-- Cell::Set (cell.cpp lines 89-97): the three-way dispatch on the text.
The external ParseFormula is a parameter. -/
def cellSet (parse : String → Expr) (t : String) : Content :=
  if t = "" then Content.empty
  else if t.data.head? = some FORMULA_SIGN ∧ 1 < t.length then
    Content.formula (parse (t.drop 1))
  else Content.text t

/-- The positions a formula expression mentions, in syntactic order. -/
def collectRefs : Expr → List Pos
  | Expr.num _ => []
  | Expr.ref p => [p]
  | Expr.add a b => collectRefs a ++ collectRefs b

def posLe (a b : Pos) : Bool :=
  decide (a.1 < b.1) || (decide (a.1 = b.1) && decide (a.2 ≤ b.2))

def insertSorted (p : Pos) : List Pos → List Pos
  | [] => [p]
  | q :: rest => if posLe p q then p :: q :: rest else q :: insertSorted p rest

/-- Modelled from the spec: FormulaAST::GetCells reports an ordered sequence
of positions. -/
def sortPos (l : List Pos) : List Pos := l.foldr insertSorted []

/-- std::unique in Formula::GetReferencedCells: collapse adjacent
duplicates. -/
def dedupAdj : List Pos → List Pos
  | [] => []
  | [a] => [a]
  | a :: b :: rest => if a = b then dedupAdj (b :: rest) else a :: dedupAdj (b :: rest)

/-- Cell::GetReferencedCells: empty for Empty/Text, the deduplicated ordered
list for a formula. -/
def refsOf : Content → List Pos
  | Content.formula e => dedupAdj (sortPos (collectRefs e))
  | _ => []

/-! ## The dependency graph (sheet.cpp lines 16-126) -/

/-- Set-like insert on a list (unordered_set::insert). -/
def sinsert (x : Pos) (l : List Pos) : List Pos := if x ∈ l then l else x :: l

/-- Set-like erase on a list (unordered_set::erase): removes every
occurrence. -/
def serase (x : Pos) (l : List Pos) : List Pos := l.filter (fun y => decide (y ≠ x))

def fnUpdate (f : Pos → List Pos) (a : Pos) (v : List Pos) : Pos → List Pos :=
  fun x => if x = a then v else f x

/-- DependencyGraph: nodes keyed by position, with forward and backward
adjacency. -/
structure DGraph where
  nodes : List Pos
  fwd : Pos → List Pos
  bwd : Pos → List Pos

def emptyDG : DGraph := DGraph.mk [] (fun _ => []) (fun _ => [])

/-- DependencyGraph::AddCell: idempotently ensure a node exists, fresh nodes
carry empty adjacency. -/
def addCell (G : DGraph) (p : Pos) : DGraph :=
  if p ∈ G.nodes then G
  else DGraph.mk (p :: G.nodes) (fnUpdate G.fwd p []) (fnUpdate G.bwd p [])

/-- DependencyGraph::AddDependency (asserts modelled as a guard). -/
def addDependency (G : DGraph) (a b : Pos) : DGraph :=
  if a ∈ G.nodes ∧ b ∈ G.nodes then
    { G with fwd := fnUpdate G.fwd a (sinsert b (G.fwd a)),
             bwd := fnUpdate G.bwd b (sinsert a (G.bwd b)) }
  else G

/-- DependencyGraph::RemoveDependency (asserts modelled as a guard). -/
def removeDependency (G : DGraph) (a b : Pos) : DGraph :=
  if a ∈ G.nodes ∧ b ∈ G.nodes then
    { G with fwd := fnUpdate G.fwd a (serase b (G.fwd a)),
             bwd := fnUpdate G.bwd b (serase a (G.bwd b)) }
  else G

/-- DependencyGraph::RemoveCell: detach the node from the sets of its
forward and backward neighbours, then drop it. -/
def removeCell (G : DGraph) (p : Pos) : DGraph :=
  if p ∈ G.nodes then
    DGraph.mk (serase p G.nodes)
      (fun x => if x = p then [] else if x ∈ G.bwd p then serase p (G.fwd x) else G.fwd x)
      (fun x => if x = p then [] else if x ∈ G.fwd p then serase p (G.bwd x) else G.bwd x)
  else G

/-- Fuel bound for the graph traversals: more than the number of nodes plus
recorded adjacency entries. -/
def graphFuel (G : DGraph) : Nat :=
  G.nodes.length + (G.nodes.map (fun p => (G.fwd p).length + (G.bwd p).length)).sum + 2

/-- Depth-first search with a visited set, mirroring the memoized traversals
of CheckCyclicDependencies and ResetCache. -/
def reachVisit (adj : Pos → List Pos) (tgt : Pos) : Nat → List Pos → List Pos → Bool
  | 0, _, _ => false
  | _ + 1, _, [] => false
  | fuel + 1, visited, src :: rest =>
    if src = tgt then true
    else if src ∈ visited then reachVisit adj tgt fuel visited rest
    else reachVisit adj tgt fuel (src :: visited) (adj src ++ rest)

/-- DependencyGraph::CheckCyclicDependencies: true iff no directed cycle
passes through the node (forward DFS, cycle iff the start is re-reached). -/
def checkCyclicDependencies (G : DGraph) (p : Pos) : Bool :=
  !(G.fwd p).any (fun q => reachVisit G.fwd p (graphFuel G) [] [q])

/-- Membership test behind DependencyGraph::ResetCache: a position is
visited iff it is reachable from the start along backward edges. -/
def bwdReaches (G : DGraph) (start q : Pos) : Bool :=
  reachVisit G.bwd q (graphFuel G) [] [start]

/-! ## The grid (sheet.h cells_, Sheet::GetConcreteCell, Sheet::PlaceCell) -/

def getSlot : Row → Nat → Option CellV
  | [], _ => none
  | x :: _, 0 => x
  | _ :: xs, n + 1 => getSlot xs n

def getRowOpt : Grid → Nat → Option Row
  | [], _ => none
  | row :: _, 0 => some row
  | _ :: rest, n + 1 => getRowOpt rest n

/-- Sheet::GetConcreteCell: nullptr both outside the stored area and on an
absent slot. -/
def getConcreteCell (cells : Grid) (p : Pos) : Option CellV :=
  match getRowOpt cells p.1 with
  | none => none
  | some row => getSlot row p.2

/-- Row assignment with resize-to-fit (PlaceCell inner part). -/
def setRow : Row → Nat → CellV → Row
  | [], 0, cv => [some cv]
  | [], n + 1, cv => none :: setRow [] n cv
  | _ :: xs, 0, cv => some cv :: xs
  | x :: xs, n + 1, cv => x :: setRow xs n cv

/-- Grid assignment with resize-to-fit (PlaceCell outer part). -/
def placeGrid : Grid → Nat → Nat → CellV → Grid
  | [], 0, c, cv => [setRow [] c cv]
  | [], r + 1, c, cv => [] :: placeGrid [] r c cv
  | row :: rest, 0, c, cv => setRow row c cv :: rest
  | row :: rest, r + 1, c, cv => row :: placeGrid rest r c cv

/-- Mutation of an existing cell's cache in place (Cell::GetValue memoizes
through a const view). Absent slots are untouched. -/
def setCacheRow : Row → Nat → Value → Row
  | [], _, _ => []
  | x :: xs, 0, v => (x.map fun cv => { cv with cache := some v }) :: xs
  | x :: xs, n + 1, v => x :: setCacheRow xs n v

def setCacheG : Grid → Pos → Value → Grid
  | [], _, _ => []
  | row :: rest, (0, c), v => setCacheRow row c v :: rest
  | row :: rest, (r + 1, c), v => row :: setCacheG rest (r, c) v

/-! ## The sheet state -/

structure SheetState where
  cells : Grid
  psize : Nat × Nat
  graph : DGraph

def emptySheet : SheetState := SheetState.mk [] (0, 0) emptyDG

inductive SErr where
  | invalidPos
  | circular
deriving DecidableEq

/-- Sheet::PlaceCell: store the cell and grow the printable size. -/
def placeCellState (s : SheetState) (p : Pos) (cv : CellV) : SheetState :=
  { s with cells := placeGrid s.cells p.1 p.2 cv,
           psize := (max s.psize.1 (p.1 + 1), max s.psize.2 (p.2 + 1)) }

/-! ## Cell value computation (Cell::GetValue, Formula::Evaluate) -/

/-- Modelled from the spec: the numeric coercion the AST evaluator applies
to a cell value (the empty string and numeric strings coerce, anything else
is a formula error). -/
def coerceValue : Value → Option Int
  | Value.n v => some v
  | Value.s v => if v = "" then some 0 else v.toInt?
  | Value.err => none

/-- Formula evaluation over a lookup that may update caches.  The absent
slot fallback to 0 mirrors the lambda in Formula::Evaluate
(formula.cpp lines 26-33). -/
def evalEWith (lk : Grid → Pos → Value × Grid) : Grid → Expr → Option Int × Grid
  | g, Expr.num n => (some n, g)
  | g, Expr.ref p =>
    match getConcreteCell g p with
    | none => (some 0, g)
    | some _ =>
      let r := lk g p
      (coerceValue r.1, r.2)
  | g, Expr.add a b =>
    let ra := evalEWith lk g a
    match ra.1 with
    | none => (none, ra.2)
    | some na =>
      let rb := evalEWith lk ra.2 b
      match rb.1 with
      | none => (none, rb.2)
      | some nb => (some (na + nb), rb.2)

/-- Impl::GetValue dispatch (EmptyImpl, TextImpl, FormulaImpl). -/
def contentValueWith (lk : Grid → Pos → Value × Grid) (g : Grid) : Content → Value × Grid
  | Content.empty => (Value.s "", g)
  | Content.text s => (textImplValue s, g)
  | Content.formula e =>
    let r := evalEWith lk g e
    (match r.1 with
     | some n => Value.n n
     | none => Value.err, r.2)

/-- Cell::GetValue with memoization, fuel-bounded on the depth of cell
lookups. -/
def getCellValue : Nat → Grid → Pos → Value × Grid
  | 0, g, _ => (Value.err, g)
  | fuel + 1, g, p =>
    match getConcreteCell g p with
    | none => (Value.s "", g)
    | some cell =>
      match cell.cache with
      | some v => (v, g)
      | none =>
        let r := contentValueWith (getCellValue fuel) g cell.content
        (r.1, setCacheG r.2 p r.1)

/-! ## Sheet::SetCell (sheet.cpp lines 136-213) -/

/-- The reference list of the cell currently stored at a position; empty
when the slot is absent (the code asserts the slot is present there). -/
def oldRefsAt (s : SheetState) (pos : Pos) : List Pos :=
  match getConcreteCell s.cells pos with
  | some cv => refsOf cv.content
  | none => []

/-- The first loop of SetCell (lines 143-158): the self-reference check
interleaved with phantom materialization, accumulating the list of freshly
created empty cells. -/
def materialize : SheetState → Pos → List Pos → List Pos → Option SErr × SheetState × List Pos
  | s, _, [], acc => (none, s, acc)
  | s, pos, next :: rest, acc =>
    if next = pos then (some SErr.circular, s, acc)
    else if validPos next = true then
      match getConcreteCell s.cells next with
      | some _ => materialize s pos rest acc
      | none => materialize (placeCellState s next emptyCellV) pos rest (acc ++ [next])
    else (some SErr.invalidPos, s, acc)

/-- Removal of the old outgoing edges (lines 167-171). -/
def removeDeps (G : DGraph) (pos : Pos) (L : List Pos) : DGraph :=
  L.foldl (fun g r => removeDependency g pos r) G

/-- AddCell plus AddDependency per reference: used both to install the new
edges (lines 177-180) and to reinstate the old ones on rollback
(lines 190-193). -/
def readdOld (G : DGraph) (pos : Pos) (L : List Pos) : DGraph :=
  L.foldl (fun g r => addDependency (addCell g r) pos r) G

/-- The graph rewiring of SetCell (lines 160-180): detach the old edges if
the node pre-existed, ensure the node, attach the new edges. -/
def rewire (G : DGraph) (pos : Pos) (oldRefs newRefs : List Pos) : DGraph :=
  readdOld (addCell (if pos ∈ G.nodes then removeDeps G pos oldRefs else G) pos) pos newRefs

/-- The cache sweep of the success path: reset the cache of every cell whose
position the backward DFS from pos visits (ResetCache with the reseter
callback of SetCell).  A visited position with no cell is skipped (the
callback asserts it exists). -/
def resetRowCaches (G : DGraph) (pos : Pos) (r : Nat) : Nat → Row → Row
  | _, [] => []
  | c, slot :: rest =>
    (if bwdReaches G pos (r, c) then slot.map (fun cv => { cv with cache := none }) else slot)
      :: resetRowCaches G pos r (c + 1) rest

def resetGridCaches (G : DGraph) (pos : Pos) : Nat → Grid → Grid
  | _, [] => []
  | r, row :: rest => resetRowCaches G pos r 0 row :: resetGridCaches G pos (r + 1) rest

def resetCachesState (s : SheetState) (pos : Pos) : SheetState :=
  { s with cells := resetGridCaches s.graph pos 0 s.cells }

/-! ## Sheet::ClearCell (sheet.cpp lines 238-259) -/

/-- One row of the rescan: c runs from the old printable column count down
to 0; the column index is guarded against the row length (line 249). -/
def scanCols (row : Row) : Nat → Option Nat
  | 0 => if 0 < row.length ∧ (getSlot row 0).isSome then some 1 else none
  | c + 1 => if c + 1 < row.length ∧ (getSlot row (c + 1)).isSome then some (c + 2) else scanCols row c

/-- The row read of one rescan step: cells_[r], with the out-of-range branch
made explicit (the second component). -/
def scanRowAt (cells : Grid) (cols : Nat) (r : Nat) : Option Nat × Bool :=
  let ro := getRowOpt cells r
  (scanCols (ro.getD []) cols, ro.isNone)

/-- The rescan (lines 246-255): r runs from the old printable row count down
to 0.  The row read cells_[r] has no bounds check in the code; the returned
flag records whether the out-of-range branch was hit (the model then reads
an empty row). -/
def scanRows (cells : Grid) (cols : Nat) : Nat → Bool → (Nat × Nat) × Bool
  | 0, oob =>
    match scanRowAt cells cols 0 with
    | (some cplus, o2) => ((1, cplus), oob || o2)
    | (none, o2) => ((0, 0), oob || o2)
  | r + 1, oob =>
    match scanRowAt cells cols (r + 1) with
    | (some cplus, o2) => ((r + 2, cplus), oob || o2)
    | (none, o2) => scanRows cells cols r (oob || o2)

/-- row[pos.col].reset(): clear a slot that is within the stored area. -/
def clearSlotRow : Row → Nat → Row
  | [], _ => []
  | _ :: xs, 0 => none :: xs
  | x :: xs, n + 1 => x :: clearSlotRow xs n

def clearSlotGrid : Grid → Pos → Grid
  | [], _ => []
  | row :: rest, (0, c) => clearSlotRow row c :: rest
  | row :: rest, (r + 1, c) => row :: clearSlotGrid rest (r, c)

/-- Sheet::ClearCell.  Returns the error (invalid position), the new state,
and whether the rescan hit the out-of-range row read. -/
def clearCellFull (s : SheetState) (pos : Pos) : Option SErr × SheetState × Bool :=
  if validPos pos = true then
    match getRowOpt s.cells pos.1 with
    | none => (none, s, false)
    | some row =>
      if pos.2 < row.length then
        let cells2 := clearSlotGrid s.cells pos
        if pos.1 + 1 = s.psize.1 ∨ pos.2 + 1 = s.psize.2 then
          let r := scanRows cells2 s.psize.2 s.psize.1 false
          (none, { s with cells := cells2, psize := r.1 }, r.2)
        else (none, { s with cells := cells2 }, false)
      else (none, s, false)
  else (some SErr.invalidPos, s, false)

def clearCellState (s : SheetState) (pos : Pos) : SheetState := (clearCellFull s pos).2.1

/-- The part of Sheet::SetCell after the materialization loop
(lines 160-213): rewire the graph, probe for cycles, on a cycle clear the
phantoms and reinstate the old edges and fail, otherwise sweep the caches of
the backward-reachable cells and install the new cell. -/
def setCellAfter (s1 : SheetState) (pos : Pos) (c : Content) (phantoms : List Pos) :
    Option SErr × SheetState :=
  if pos ∈ s1.graph.nodes then
    if checkCyclicDependencies (rewire s1.graph pos (oldRefsAt s1 pos) (refsOf c)) pos = true then
      (none, placeCellState
        (resetCachesState
          { s1 with graph := rewire s1.graph pos (oldRefsAt s1 pos) (refsOf c) } pos)
        pos (CellV.mk c none))
    else
      (some SErr.circular,
        { (phantoms.foldl (fun t q => clearCellState t q)
             { s1 with graph := rewire s1.graph pos (oldRefsAt s1 pos) (refsOf c) }) with
          graph := readdOld
            ((phantoms.foldl (fun t q => clearCellState t q)
               { s1 with graph := rewire s1.graph pos (oldRefsAt s1 pos) (refsOf c) })).graph
            pos (oldRefsAt s1 pos) })
  else
    (none, placeCellState
      { s1 with graph := rewire s1.graph pos (oldRefsAt s1 pos) (refsOf c) }
      pos (CellV.mk c none))

/-- Sheet::SetCell (lines 136-213).  Returns (some error) with the state at
the throw point on failure, and (none, new state) on success. -/
def setCell (s : SheetState) (pos : Pos) (c : Content) : Option SErr × SheetState :=
  if validPos pos = true then
    match materialize s pos (refsOf c) [] with
    | (some e, s1, _) => (some e, s1)
    | (none, s1, phantoms) => setCellAfter s1 pos c phantoms
  else (some SErr.invalidPos, s)

/-! ## Claim-side definitions -/

/-- The independent maxima of the spec sentence on GetPrintableSize: the
largest row index + 1 and column index + 1 over non-absent slots, taken
independently, or (0, 0) when none.  Stated from the spec wording, for
comparison with the psize the code maintains. -/
def rowMaxCol : Row → Nat → Nat
  | [], _ => 0
  | slot :: rest, c => max (if slot.isSome then c + 1 else 0) (rowMaxCol rest (c + 1))

def specRows : Grid → Nat → Nat
  | [], _ => 0
  | row :: rest, r =>
    max (if row.any Option.isSome then r + 1 else 0) (specRows rest (r + 1))

def specCols : Grid → Nat
  | [] => 0
  | row :: rest => max (rowMaxCol row 0) (specCols rest)

def specPrintableSize (cells : Grid) : Nat × Nat := (specRows cells 0, specCols cells)

/-- An edge of the dependency graph, as recorded by the forward adjacency of
a live node. -/
def edgeIn (G : DGraph) (a b : Pos) : Prop := a ∈ G.nodes ∧ b ∈ G.fwd a

/-- The graph operations of the public DependencyGraph surface, for
quantifying over operation sequences. -/
inductive GOp where
  | addC (p : Pos)
  | addD (a b : Pos)
  | remD (a b : Pos)
  | remC (p : Pos)
deriving DecidableEq

def applyGOp (G : DGraph) : GOp → DGraph
  | GOp.addC p => addCell G p
  | GOp.addD a b => addDependency G a b
  | GOp.remD a b => removeDependency G a b
  | GOp.remC p => removeCell G p

def runGOps (ops : List GOp) : DGraph := ops.foldl applyGOp emptyDG

/-- The inductive invariant behind the C6 claim: the forward and backward
sets mirror each other on nodes, and recorded adjacency stays inside the
node set. -/
def symClosed (G : DGraph) : Prop :=
  (∀ p, p ∈ G.nodes → ∀ q, q ∈ G.nodes → (q ∈ G.fwd p ↔ p ∈ G.bwd q)) ∧
  (∀ p, p ∈ G.nodes → (∀ x, x ∈ G.fwd p → x ∈ G.nodes) ∧ (∀ x, x ∈ G.bwd p → x ∈ G.nodes))

/-! ## Scenario states used by the concrete theorems -/

def c1FirstState : SheetState := (setCell emptySheet (0, 0) (Content.formula (Expr.ref (0, 1)))).2

def c1Failed : Option SErr × SheetState := setCell c1FirstState (0, 1) (Content.formula (Expr.ref (0, 0)))

def c2Failed : Option SErr × SheetState :=
  setCell emptySheet (0, 1) (Content.formula (Expr.add (Expr.ref (0, 0)) (Expr.ref (0, 1))))

def c3AfterSets : SheetState :=
  (setCell (setCell emptySheet (0, 0) (Content.formula (Expr.num 2))).2 (1, 0)
    (Content.formula (Expr.add (Expr.ref (0, 0)) (Expr.num 3)))).2

def c3AfterRead : SheetState :=
  { c3AfterSets with cells := (getCellValue 9 c3AfterSets.cells (1, 0)).2 }

def c3AfterClear : SheetState := (clearCellFull c3AfterRead (0, 0)).2.1

def c4AfterSets : SheetState :=
  (setCell (setCell (setCell emptySheet (0, 5) Content.empty).2 (3, 1) Content.empty).2
    (3, 5) Content.empty).2

def c4AfterClear : Option SErr × SheetState × Bool := clearCellFull c4AfterSets (3, 5)

def c5TwoCalls : Option SErr × SheetState :=
  setCell (setCell emptySheet (0, 0) (Content.formula (Expr.ref (0, 1)))).2 (0, 0) Content.empty

def c5OneCall : Option SErr × SheetState := setCell emptySheet (0, 0) Content.empty

def c10OneCell : SheetState := (setCell emptySheet (0, 0) Content.empty).2

def c10Cleared : Option SErr × SheetState × Bool := clearCellFull c10OneCell (0, 0)

/-- C1.  The code contradicts the claim: after a SetCell that fails with
circular-dependency, the rollback reinstates the old outgoing edges but
never removes the tentatively installed new ones, so the graph edge set
differs from the pre-call snapshot.  Here the failed SetCell at (0,1)
leaves the stale edge (0,1) -> (0,0) behind, and as a consequence even a
plain non-referencing SetCell at (0,1) afterwards fails with
circular-dependency. -/
theorem c1_cycle_failure_leaves_new_edges :
    c1Failed.1 = some SErr.circular ∧
    (0, 0) ∈ c1Failed.2.graph.fwd (0, 1) ∧
    (0, 0) ∉ c1FirstState.graph.fwd (0, 1) ∧
    (setCell c1Failed.2 (0, 1) Content.empty).1 = some SErr.circular := by
  decide

/-- C2 counterexample.  SetCell at (0,1) with a formula referencing (0,0)
and (0,1) fails with circular-dependency, yet a phantom Empty cell has been
materialized at (0,0) and persists, because the self-reference check is
interleaved with phantom materialization; the claim asserts no phantom
persists. -/
theorem c2_phantom_persists_on_self_reference :
    c2Failed.1 = some SErr.circular ∧
    getConcreteCell c2Failed.2.cells (0, 0) = some emptyCellV ∧
    c2Failed.2.psize = (1, 1) := by
  decide

/-- C3.  The code contradicts the claim for ClearCell: after A1 := "2",
A2 := "=A1+3", a GetValue(A2) that caches 5, and ClearCell(A1), the cache
of A2 still holds 5 and GetValue(A2) returns the stale 5, while a fresh
evaluation of the content of A2 in the post-clear state yields 3.
ClearCell performs no cache invalidation at all. -/
theorem c3_clearCell_leaves_stale_cache :
    (clearCellFull c3AfterRead (0, 0)).1 = none ∧
    (getConcreteCell c3AfterClear.cells (1, 0)).map CellV.cache = some (some (Value.n 5)) ∧
    (getCellValue 9 c3AfterClear.cells (1, 0)).1 = Value.n 5 ∧
    (contentValueWith (getCellValue 8) c3AfterClear.cells
      (Content.formula (Expr.add (Expr.ref (0, 0)) (Expr.num 3)))).1 = Value.n 3 := by
  decide

/-- C4.  The code contradicts the claim: with cells at (0,5), (3,1) and
(3,5), clearing the boundary cell (3,5) makes the rescan stop at the first
occupied slot found scanning bottom-up and right-to-left, setting the
printable size to (4,2), while the independent maxima over the remaining
non-absent slots are (4,6) (the cell at (0,5) still exists). -/
theorem c4_rescan_not_independent_maxima :
    c4AfterClear.1 = none ∧
    c4AfterClear.2.1.psize = (4, 2) ∧
    specPrintableSize c4AfterClear.2.1.cells = (4, 6) ∧
    (getConcreteCell c4AfterClear.2.1.cells (0, 5)).isSome = true := by
  decide

/-- C5 counterexample.  From the empty sheet, SetCell((0,0), ref (0,1))
then SetCell((0,0), empty) leaves node (0,1) in the graph, while the single
SetCell((0,0), empty) does not create it: the node sets differ, refuting
the claim that both node set and edge set coincide. -/
theorem c5_node_sets_differ :
    c5TwoCalls.1 = none ∧ c5OneCall.1 = none ∧
    (0, 1) ∈ c5TwoCalls.2.graph.nodes ∧
    (0, 1) ∉ c5OneCall.2.graph.nodes := by
  decide

/-- C10.  The code contradicts the claim: with a single stored row, clearing
the boundary cell (0,0) starts the rescan at row index printable rows = 1,
which equals the number of stored rows, so the row lookup hits the
out-of-range branch. -/
theorem c10_clear_rescan_reads_out_of_range :
    c10OneCell.cells.length = 1 ∧
    c10Cleared.1 = none ∧
    c10Cleared.2.2 = true := by
  decide

/-! ## Helper lemmas: list sets and graph operations -/

theorem mem_sinsert {x y : Pos} {l : List Pos} : x ∈ sinsert y l ↔ x = y ∨ x ∈ l := by
  unfold sinsert
  by_cases h : y ∈ l
  · simp only [if_pos h]
    constructor
    · intro hx; exact Or.inr hx
    · intro hx
      cases hx with
      | inl he => exact he ▸ h
      | inr hm => exact hm
  · simp [if_neg h, List.mem_cons]

theorem mem_serase {x y : Pos} {l : List Pos} : x ∈ serase y l ↔ x ∈ l ∧ x ≠ y := by
  unfold serase
  simp [List.mem_filter]

theorem fnUpdate_apply (f : Pos → List Pos) (a : Pos) (v : List Pos) (x : Pos) :
    fnUpdate f a v x = if x = a then v else f x := rfl

theorem addCell_nodes {G : DGraph} {p x : Pos} :
    x ∈ (addCell G p).nodes ↔ x = p ∨ x ∈ G.nodes := by
  unfold addCell
  by_cases hp : p ∈ G.nodes
  · simp only [if_pos hp]
    constructor
    · exact fun h => Or.inr h
    · rintro (rfl | h)
      · exact hp
      · exact h
  · simp [if_neg hp, List.mem_cons]

theorem addCell_fwd {G : DGraph} {p x y : Pos} :
    y ∈ (addCell G p).fwd x ↔ y ∈ G.fwd x ∧ ¬(p ∉ G.nodes ∧ x = p) := by
  unfold addCell
  by_cases hp : p ∈ G.nodes
  · simp [if_pos hp, hp]
  · simp only [if_neg hp, fnUpdate_apply]
    by_cases hxp : x = p
    · simp [if_pos hxp, hp, hxp]
    · simp [if_neg hxp, hp, hxp]

theorem addCell_bwd {G : DGraph} {p x y : Pos} :
    y ∈ (addCell G p).bwd x ↔ y ∈ G.bwd x ∧ ¬(p ∉ G.nodes ∧ x = p) := by
  unfold addCell
  by_cases hp : p ∈ G.nodes
  · simp [if_pos hp, hp]
  · simp only [if_neg hp, fnUpdate_apply]
    by_cases hxp : x = p
    · simp [if_pos hxp, hp, hxp]
    · simp [if_neg hxp, hp, hxp]

theorem addDependency_nodes {G : DGraph} {a b : Pos} :
    (addDependency G a b).nodes = G.nodes := by
  unfold addDependency
  by_cases hg : a ∈ G.nodes ∧ b ∈ G.nodes
  · simp [if_pos hg]
  · simp [if_neg hg]

theorem addDependency_fwd {G : DGraph} {a b x y : Pos} :
    y ∈ (addDependency G a b).fwd x ↔
      (a ∈ G.nodes ∧ b ∈ G.nodes ∧ x = a ∧ y = b) ∨ y ∈ G.fwd x := by
  unfold addDependency
  by_cases hg : a ∈ G.nodes ∧ b ∈ G.nodes
  · simp only [if_pos hg, fnUpdate_apply]
    by_cases hxa : x = a
    · rw [if_pos hxa, mem_sinsert, hxa]
      constructor
      · rintro (rfl | h)
        · exact Or.inl ⟨hg.1, hg.2, rfl, rfl⟩
        · exact Or.inr h
      · rintro (⟨_, _, _, rfl⟩ | h)
        · exact Or.inl rfl
        · exact Or.inr h
    · simp only [if_neg hxa]
      constructor
      · exact fun h => Or.inr h
      · rintro (⟨_, _, he, _⟩ | h)
        · exact absurd he hxa
        · exact h
  · simp only [if_neg hg]
    constructor
    · exact fun h => Or.inr h
    · rintro (⟨h1, h2, _, _⟩ | h)
      · exact absurd ⟨h1, h2⟩ hg
      · exact h

theorem addDependency_bwd {G : DGraph} {a b x y : Pos} :
    y ∈ (addDependency G a b).bwd x ↔
      (a ∈ G.nodes ∧ b ∈ G.nodes ∧ x = b ∧ y = a) ∨ y ∈ G.bwd x := by
  unfold addDependency
  by_cases hg : a ∈ G.nodes ∧ b ∈ G.nodes
  · simp only [if_pos hg, fnUpdate_apply]
    by_cases hxb : x = b
    · rw [if_pos hxb, mem_sinsert, hxb]
      constructor
      · rintro (rfl | h)
        · exact Or.inl ⟨hg.1, hg.2, rfl, rfl⟩
        · exact Or.inr h
      · rintro (⟨_, _, _, rfl⟩ | h)
        · exact Or.inl rfl
        · exact Or.inr h
    · simp only [if_neg hxb]
      constructor
      · exact fun h => Or.inr h
      · rintro (⟨_, _, he, _⟩ | h)
        · exact absurd he hxb
        · exact h
  · simp only [if_neg hg]
    constructor
    · exact fun h => Or.inr h
    · rintro (⟨h1, h2, _, _⟩ | h)
      · exact absurd ⟨h1, h2⟩ hg
      · exact h

theorem removeDependency_nodes {G : DGraph} {a b : Pos} :
    (removeDependency G a b).nodes = G.nodes := by
  unfold removeDependency
  by_cases hg : a ∈ G.nodes ∧ b ∈ G.nodes
  · simp [if_pos hg]
  · simp [if_neg hg]

theorem removeDependency_fwd {G : DGraph} {a b x y : Pos} :
    y ∈ (removeDependency G a b).fwd x ↔
      y ∈ G.fwd x ∧ ¬(a ∈ G.nodes ∧ b ∈ G.nodes ∧ x = a ∧ y = b) := by
  unfold removeDependency
  by_cases hg : a ∈ G.nodes ∧ b ∈ G.nodes
  · simp only [if_pos hg, fnUpdate_apply]
    by_cases hxa : x = a
    · rw [if_pos hxa, mem_serase, hxa]
      constructor
      · rintro ⟨h1, h2⟩
        exact ⟨h1, fun hc => h2 hc.2.2.2⟩
      · rintro ⟨h1, h2⟩
        refine ⟨h1, fun he => h2 ⟨hg.1, hg.2, rfl, he⟩⟩
    · simp only [if_neg hxa]
      constructor
      · exact fun h => ⟨h, fun hc => hxa hc.2.2.1⟩
      · exact fun h => h.1
  · simp only [if_neg hg]
    constructor
    · exact fun h => ⟨h, fun hc => hg ⟨hc.1, hc.2.1⟩⟩
    · exact fun h => h.1

theorem removeDependency_bwd {G : DGraph} {a b x y : Pos} :
    y ∈ (removeDependency G a b).bwd x ↔
      y ∈ G.bwd x ∧ ¬(a ∈ G.nodes ∧ b ∈ G.nodes ∧ x = b ∧ y = a) := by
  unfold removeDependency
  by_cases hg : a ∈ G.nodes ∧ b ∈ G.nodes
  · simp only [if_pos hg, fnUpdate_apply]
    by_cases hxb : x = b
    · rw [if_pos hxb, mem_serase, hxb]
      constructor
      · rintro ⟨h1, h2⟩
        exact ⟨h1, fun hc => h2 hc.2.2.2⟩
      · rintro ⟨h1, h2⟩
        refine ⟨h1, fun he => h2 ⟨hg.1, hg.2, rfl, he⟩⟩
    · simp only [if_neg hxb]
      constructor
      · exact fun h => ⟨h, fun hc => hxb hc.2.2.1⟩
      · exact fun h => h.1
  · simp only [if_neg hg]
    constructor
    · exact fun h => ⟨h, fun hc => hg ⟨hc.1, hc.2.1⟩⟩
    · exact fun h => h.1

theorem removeCell_nodes {G : DGraph} {p x : Pos} :
    x ∈ (removeCell G p).nodes ↔ x ∈ G.nodes ∧ ¬(p ∈ G.nodes ∧ x = p) := by
  unfold removeCell
  by_cases hp : p ∈ G.nodes
  · simp only [if_pos hp, mem_serase]
    constructor
    · rintro ⟨h1, h2⟩
      exact ⟨h1, fun hc => h2 hc.2⟩
    · rintro ⟨h1, h2⟩
      exact ⟨h1, fun he => h2 ⟨hp, he⟩⟩
  · simp only [if_neg hp]
    constructor
    · exact fun h => ⟨h, fun hc => hp hc.1⟩
    · exact fun h => h.1

theorem removeCell_fwd {G : DGraph} {p x y : Pos} :
    y ∈ (removeCell G p).fwd x ↔
      y ∈ G.fwd x ∧ ¬(p ∈ G.nodes ∧ x = p) ∧ ¬(p ∈ G.nodes ∧ x ∈ G.bwd p ∧ y = p) := by
  unfold removeCell
  by_cases hp : p ∈ G.nodes
  · simp only [if_pos hp]
    by_cases hxp : x = p
    · simp [if_pos hxp, hp, hxp]
    · simp only [if_neg hxp]
      by_cases hxb : x ∈ G.bwd p
      · simp only [if_pos hxb, mem_serase]
        constructor
        · rintro ⟨h1, h2⟩
          exact ⟨h1, fun hc => hxp hc.2, fun hc => h2 hc.2.2⟩
        · rintro ⟨h1, _, h3⟩
          exact ⟨h1, fun he => h3 ⟨hp, hxb, he⟩⟩
      · simp only [if_neg hxb]
        constructor
        · exact fun h => ⟨h, fun hc => hxp hc.2, fun hc => hxb hc.2.1⟩
        · exact fun h => h.1
  · simp only [if_neg hp]
    constructor
    · exact fun h => ⟨h, fun hc => hp hc.1, fun hc => hp hc.1⟩
    · exact fun h => h.1

theorem removeCell_bwd {G : DGraph} {p x y : Pos} :
    y ∈ (removeCell G p).bwd x ↔
      y ∈ G.bwd x ∧ ¬(p ∈ G.nodes ∧ x = p) ∧ ¬(p ∈ G.nodes ∧ x ∈ G.fwd p ∧ y = p) := by
  unfold removeCell
  by_cases hp : p ∈ G.nodes
  · simp only [if_pos hp]
    by_cases hxp : x = p
    · simp [if_pos hxp, hp, hxp]
    · simp only [if_neg hxp]
      by_cases hxf : x ∈ G.fwd p
      · simp only [if_pos hxf, mem_serase]
        constructor
        · rintro ⟨h1, h2⟩
          exact ⟨h1, fun hc => hxp hc.2, fun hc => h2 hc.2.2⟩
        · rintro ⟨h1, _, h3⟩
          exact ⟨h1, fun he => h3 ⟨hp, hxf, he⟩⟩
      · simp only [if_neg hxf]
        constructor
        · exact fun h => ⟨h, fun hc => hxp hc.2, fun hc => hxf hc.2.1⟩
        · exact fun h => h.1
  · simp only [if_neg hp]
    constructor
    · exact fun h => ⟨h, fun hc => hp hc.1, fun hc => hp hc.1⟩
    · exact fun h => h.1

theorem addCell_preserves {G : DGraph} (h : symClosed G) (p : Pos) : symClosed (addCell G p) := by
  obtain ⟨hsym, hclos⟩ := h
  constructor
  · intro x hx y hy
    rw [addCell_nodes] at hx hy
    rw [addCell_fwd, addCell_bwd]
    by_cases hpn : p ∈ G.nodes
    · have hx2 : x ∈ G.nodes := by
        rcases hx with rfl | hm
        · exact hpn
        · exact hm
      have hy2 : y ∈ G.nodes := by
        rcases hy with rfl | hm
        · exact hpn
        · exact hm
      have hs := hsym x hx2 y hy2
      tauto
    · rcases hx with rfl | hx2
      · constructor
        · rintro ⟨_, hc⟩
          exact absurd ⟨hpn, rfl⟩ hc
        · rintro ⟨hm, hc⟩
          rcases hy with rfl | hy2
          · exact absurd ⟨hpn, rfl⟩ hc
          · exact absurd ((hclos y hy2).2 x hm) hpn
      · rcases hy with rfl | hy2
        · constructor
          · rintro ⟨hm, _⟩
            exact absurd ((hclos x hx2).1 y hm) hpn
          · rintro ⟨_, hc⟩
            exact absurd ⟨hpn, rfl⟩ hc
        · have hs := hsym x hx2 y hy2
          have hxp : x ≠ p := fun he => hpn (he ▸ hx2)
          have hyp : y ≠ p := fun he => hpn (he ▸ hy2)
          tauto
  · intro x hx
    rw [addCell_nodes] at hx
    constructor
    · intro z hz
      rw [addCell_fwd] at hz
      rw [addCell_nodes]
      rcases hz with ⟨hm, hc⟩
      rcases hx with hxp | hx2
      · by_cases hpn : p ∈ G.nodes
        · have hx3 : x ∈ G.nodes := by rw [hxp]; exact hpn
          exact Or.inr ((hclos x hx3).1 z hm)
        · exact absurd ⟨hpn, hxp⟩ hc
      · exact Or.inr ((hclos x hx2).1 z hm)
    · intro z hz
      rw [addCell_bwd] at hz
      rw [addCell_nodes]
      rcases hz with ⟨hm, hc⟩
      rcases hx with hxp | hx2
      · by_cases hpn : p ∈ G.nodes
        · have hx3 : x ∈ G.nodes := by rw [hxp]; exact hpn
          exact Or.inr ((hclos x hx3).2 z hm)
        · exact absurd ⟨hpn, hxp⟩ hc
      · exact Or.inr ((hclos x hx2).2 z hm)

theorem addDependency_preserves {G : DGraph} (h : symClosed G) (a b : Pos) :
    symClosed (addDependency G a b) := by
  obtain ⟨hsym, hclos⟩ := h
  constructor
  · intro x hx y hy
    rw [addDependency_nodes] at hx hy
    rw [addDependency_fwd, addDependency_bwd]
    have hs := hsym x hx y hy
    constructor
    · rintro (⟨h1, h2, rfl, rfl⟩ | hm)
      · exact Or.inl ⟨h1, h2, rfl, rfl⟩
      · exact Or.inr (hs.mp hm)
    · rintro (⟨h1, h2, rfl, rfl⟩ | hm)
      · exact Or.inl ⟨h1, h2, rfl, rfl⟩
      · exact Or.inr (hs.mpr hm)
  · intro x hx
    rw [addDependency_nodes] at hx
    constructor
    · intro z hz
      rw [addDependency_fwd] at hz
      rw [addDependency_nodes]
      rcases hz with ⟨_, h2, _, rfl⟩ | hm
      · exact h2
      · exact (hclos x hx).1 z hm
    · intro z hz
      rw [addDependency_bwd] at hz
      rw [addDependency_nodes]
      rcases hz with ⟨h1, _, _, rfl⟩ | hm
      · exact h1
      · exact (hclos x hx).2 z hm

theorem removeDependency_preserves {G : DGraph} (h : symClosed G) (a b : Pos) :
    symClosed (removeDependency G a b) := by
  obtain ⟨hsym, hclos⟩ := h
  constructor
  · intro x hx y hy
    rw [removeDependency_nodes] at hx hy
    rw [removeDependency_fwd, removeDependency_bwd]
    have hs := hsym x hx y hy
    constructor
    · rintro ⟨hm, hc⟩
      refine ⟨hs.mp hm, fun hd => hc ⟨hd.1, hd.2.1, hd.2.2.2, hd.2.2.1⟩⟩
    · rintro ⟨hm, hc⟩
      refine ⟨hs.mpr hm, fun hd => hc ⟨hd.1, hd.2.1, hd.2.2.2, hd.2.2.1⟩⟩
  · intro x hx
    rw [removeDependency_nodes] at hx
    constructor
    · intro z hz
      rw [removeDependency_fwd] at hz
      rw [removeDependency_nodes]
      exact (hclos x hx).1 z hz.1
    · intro z hz
      rw [removeDependency_bwd] at hz
      rw [removeDependency_nodes]
      exact (hclos x hx).2 z hz.1

theorem removeCell_preserves {G : DGraph} (h : symClosed G) (p : Pos) :
    symClosed (removeCell G p) := by
  obtain ⟨hsym, hclos⟩ := h
  constructor
  · intro x hx y hy
    rw [removeCell_nodes] at hx hy
    rw [removeCell_fwd, removeCell_bwd]
    have hs := hsym x hx.1 y hy.1
    by_cases hpn : p ∈ G.nodes
    · have hxp : x ≠ p := fun he => hx.2 ⟨hpn, he⟩
      have hyp : y ≠ p := fun he => hy.2 ⟨hpn, he⟩
      constructor
      · rintro ⟨hm, _, _⟩
        exact ⟨hs.mp hm, fun hc => hyp hc.2, fun hc => hxp hc.2.2⟩
      · rintro ⟨hm, _, _⟩
        exact ⟨hs.mpr hm, fun hc => hxp hc.2, fun hc => hyp hc.2.2⟩
    · constructor
      · rintro ⟨hm, _, _⟩
        exact ⟨hs.mp hm, fun hc => hpn hc.1, fun hc => hpn hc.1⟩
      · rintro ⟨hm, _, _⟩
        exact ⟨hs.mpr hm, fun hc => hpn hc.1, fun hc => hpn hc.1⟩
  · intro x hx
    rw [removeCell_nodes] at hx
    constructor
    · intro z hz
      rw [removeCell_fwd] at hz
      rw [removeCell_nodes]
      rcases hz with ⟨hm, h2, h3⟩
      refine ⟨(hclos x hx.1).1 z hm, ?_⟩
      rintro ⟨hpn, rfl⟩
      exact h3 ⟨hpn, (hsym x hx.1 z hpn).mp hm, rfl⟩
    · intro z hz
      rw [removeCell_bwd] at hz
      rw [removeCell_nodes]
      rcases hz with ⟨hm, h2, h3⟩
      refine ⟨(hclos x hx.1).2 z hm, ?_⟩
      rintro ⟨hpn, rfl⟩
      exact h3 ⟨hpn, (hsym z hpn x hx.1).mpr hm, rfl⟩

theorem applyGOp_preserves {G : DGraph} (h : symClosed G) (op : GOp) :
    symClosed (applyGOp G op) := by
  cases op with
  | addC p => exact addCell_preserves h p
  | addD a b => exact addDependency_preserves h a b
  | remD a b => exact removeDependency_preserves h a b
  | remC p => exact removeCell_preserves h p

theorem runGOps_symClosed (ops : List GOp) : symClosed (runGOps ops) := by
  unfold runGOps
  have base : symClosed emptyDG := by
    constructor
    · intro p hp; cases hp
    · intro p hp; cases hp
  have main : ∀ (l : List GOp) (G : DGraph), symClosed G → symClosed (l.foldl applyGOp G) := by
    intro l
    induction l with
    | nil => intro G h; exact h
    | cons op rest ih =>
      intro G h
      exact ih (applyGOp G op) (applyGOp_preserves h op)
  exact main ops emptyDG base

/-- C6.  After every sequence of graph operations (AddCell, AddDependency,
RemoveDependency, RemoveCell) starting from the empty graph, the forward
and backward adjacency are mutually consistent: for all nodes p and q,
q is in forward(p) iff p is in backward(q). -/
theorem c6_forward_backward_consistent (ops : List GOp) (p q : Pos)
    (hp : p ∈ (runGOps ops).nodes) (hq : q ∈ (runGOps ops).nodes) :
    q ∈ (runGOps ops).fwd p ↔ p ∈ (runGOps ops).bwd q :=
  (runGOps_symClosed ops).1 p hp q hq

/-- C6 witness: the invariant evaluated on a concrete operation sequence. -/
theorem c6_forward_backward_consistent_witness :
    (0, 1) ∈ (runGOps [GOp.addC (0, 0), GOp.addC (0, 1), GOp.addD (0, 0) (0, 1)]).fwd (0, 0) ↔
    (0, 0) ∈ (runGOps [GOp.addC (0, 0), GOp.addC (0, 1), GOp.addD (0, 0) (0, 1)]).bwd (0, 1) :=
  c6_forward_backward_consistent
    [GOp.addC (0, 0), GOp.addC (0, 1), GOp.addD (0, 0) (0, 1)] (0, 0) (0, 1)
    (by decide) (by decide)

/-- C9.  A Text cell whose stored text begins with ESCAPE_SIGN yields the
text minus its first character as value while GetText returns the stored
text unchanged; a Text cell not beginning with ESCAPE_SIGN yields a value
equal to its text. -/
theorem c9_escape_semantics (s : String) :
    (s.data.head? = some ESCAPE_SIGN →
      textImplValue s = Value.s (String.mk (s.data.drop 1)) ∧ textImplGetText s = s) ∧
    (s.data.head? ≠ some ESCAPE_SIGN → textImplValue s = Value.s (textImplGetText s)) := by
  constructor
  · intro h
    have hne : s ≠ "" := by
      intro he
      rw [he] at h
      simp at h
    unfold textImplValue textImplGetText
    rw [if_pos ⟨hne, h⟩]
    exact ⟨rfl, rfl⟩
  · intro h
    unfold textImplValue textImplGetText
    by_cases hc : s ≠ "" ∧ s.data.head? = some ESCAPE_SIGN
    · exact absurd hc.2 h
    · rw [if_neg hc]

/-- C9 witness: the escape string made of ESCAPE_SIGN followed by = 1 + 2,
and a plain text. -/
theorem c9_escape_semantics_witness :
    textImplValue (String.mk [ESCAPE_SIGN, FORMULA_SIGN]) =
      Value.s (String.mk [FORMULA_SIGN]) ∧
    textImplValue "abc" = Value.s "abc" := by
  constructor
  · have h := (c9_escape_semantics (String.mk [ESCAPE_SIGN, FORMULA_SIGN])).1 (by decide)
    rw [h.1]
    rfl
  · have h := (c9_escape_semantics "abc").2 (by decide)
    rw [h]
    rfl

/-! ## Helper lemmas: the grid -/

theorem getSlot_setRow_self : ∀ (c : Nat) (row : Row) (cv : CellV),
    getSlot (setRow row c cv) c = some cv := by
  intro c
  induction c with
  | zero =>
    intro row cv
    cases row <;> rfl
  | succ n ih =>
    intro row cv
    cases row with
    | nil => exact ih [] cv
    | cons x xs => exact ih xs cv

theorem getSlot_setRow_ne : ∀ (c : Nat) (row : Row) (cv : CellV) (d : Nat), d ≠ c →
    getSlot (setRow row c cv) d = getSlot row d := by
  intro c
  induction c with
  | zero =>
    intro row cv d hd
    cases row with
    | nil =>
      cases d with
      | zero => exact absurd rfl hd
      | succ m => rfl
    | cons x xs =>
      cases d with
      | zero => exact absurd rfl hd
      | succ m => rfl
  | succ n ih =>
    intro row cv d hd
    cases row with
    | nil =>
      cases d with
      | zero => rfl
      | succ m => exact ih [] cv m (fun he => hd (by rw [he]))
    | cons x xs =>
      cases d with
      | zero => rfl
      | succ m => exact ih xs cv m (fun he => hd (by rw [he]))

theorem getCC_place_self : ∀ (r : Nat) (cells : Grid) (c : Nat) (cv : CellV),
    getConcreteCell (placeGrid cells r c cv) (r, c) = some cv := by
  intro r
  induction r with
  | zero =>
    intro cells c cv
    cases cells with
    | nil => exact getSlot_setRow_self c [] cv
    | cons row rest => exact getSlot_setRow_self c row cv
  | succ n ih =>
    intro cells c cv
    cases cells with
    | nil => exact ih [] c cv
    | cons row rest => exact ih rest c cv

theorem getCC_place_ne : ∀ (r : Nat) (cells : Grid) (c : Nat) (cv : CellV) (q : Pos),
    q ≠ (r, c) → getConcreteCell (placeGrid cells r c cv) q = getConcreteCell cells q := by
  intro r
  induction r with
  | zero =>
    intro cells c cv q hq
    rcases q with ⟨qr, qc⟩
    cases cells with
    | nil =>
      cases qr with
      | zero =>
        have hqc : qc ≠ c := fun he => hq (by rw [he])
        have h2 := getSlot_setRow_ne c [] cv qc hqc
        exact h2
      | succ m => rfl
    | cons row rest =>
      cases qr with
      | zero =>
        have hqc : qc ≠ c := fun he => hq (by rw [he])
        exact getSlot_setRow_ne c row cv qc hqc
      | succ m => rfl
  | succ n ih =>
    intro cells c cv q hq
    rcases q with ⟨qr, qc⟩
    cases cells with
    | nil =>
      cases qr with
      | zero => rfl
      | succ m =>
        have hm : ((m, qc) : Pos) ≠ (n, c) := by
          intro he
          apply hq
          have h1 : m = n := congrArg Prod.fst he
          have h2 : qc = c := congrArg Prod.snd he
          rw [h1, h2]
        exact ih [] c cv (m, qc) hm
    | cons row rest =>
      cases qr with
      | zero => rfl
      | succ m =>
        have hm : ((m, qc) : Pos) ≠ (n, c) := by
          intro he
          apply hq
          have h1 : m = n := congrArg Prod.fst he
          have h2 : qc = c := congrArg Prod.snd he
          rw [h1, h2]
        exact ih rest c cv (m, qc) hm

/-! ## Helper lemmas: the materialization loop -/

theorem materialize_graph : ∀ (refs : List Pos) (s : SheetState) (pos : Pos) (acc : List Pos),
    (materialize s pos refs acc).2.1.graph = s.graph := by
  intro refs
  induction refs with
  | nil => intro s pos acc; rfl
  | cons next rest ih =>
    intro s pos acc
    simp only [materialize]
    by_cases h1 : next = pos
    · rw [if_pos h1]
    · rw [if_neg h1]
      by_cases h2 : validPos next = true
      · rw [if_pos h2]
        cases hc : getConcreteCell s.cells next with
        | some cv => exact ih s pos acc
        | none => exact ih (placeCellState s next emptyCellV) pos (acc ++ [next])
      · rw [if_neg h2]

theorem materialize_cell_at_pos :
    ∀ (refs : List Pos) (s : SheetState) (pos : Pos) (acc : List Pos),
    getConcreteCell (materialize s pos refs acc).2.1.cells pos =
      getConcreteCell s.cells pos := by
  intro refs
  induction refs with
  | nil => intro s pos acc; rfl
  | cons next rest ih =>
    intro s pos acc
    simp only [materialize]
    by_cases h1 : next = pos
    · rw [if_pos h1]
    · rw [if_neg h1]
      by_cases h2 : validPos next = true
      · rw [if_pos h2]
        cases hc : getConcreteCell s.cells next with
        | some cv => exact ih s pos acc
        | none =>
          have hne : pos ≠ (next.1, next.2) := fun he => h1 (by rw [he])
          rw [ih (placeCellState s next emptyCellV) pos (acc ++ [next])]
          exact getCC_place_ne next.1 s.cells next.2 emptyCellV pos hne
      · rw [if_neg h2]

theorem materialize_psize : ∀ (refs : List Pos) (s : SheetState) (pos : Pos) (acc : List Pos),
    s.psize.1 ≤ (materialize s pos refs acc).2.1.psize.1 ∧
    s.psize.2 ≤ (materialize s pos refs acc).2.1.psize.2 := by
  intro refs
  induction refs with
  | nil => intro s pos acc; exact ⟨Nat.le_refl _, Nat.le_refl _⟩
  | cons next rest ih =>
    intro s pos acc
    simp only [materialize]
    by_cases h1 : next = pos
    · rw [if_pos h1]
      exact ⟨Nat.le_refl _, Nat.le_refl _⟩
    · rw [if_neg h1]
      by_cases h2 : validPos next = true
      · rw [if_pos h2]
        cases hc : getConcreteCell s.cells next with
        | some cv => exact ih s pos acc
        | none =>
          have h3 := ih (placeCellState s next emptyCellV) pos (acc ++ [next])
          exact ⟨Nat.le_trans (Nat.le_max_left _ _) h3.1,
                 Nat.le_trans (Nat.le_max_left _ _) h3.2⟩
      · rw [if_neg h2]
        exact ⟨Nat.le_refl _, Nat.le_refl _⟩

theorem materialize_not_pos :
    ∀ (refs : List Pos) (s : SheetState) (pos : Pos) (acc : List Pos)
      (s1 : SheetState) (ph : List Pos),
    materialize s pos refs acc = (none, s1, ph) → pos ∉ refs := by
  intro refs
  induction refs with
  | nil => intro s pos acc s1 ph _ hmem; cases hmem
  | cons next rest ih =>
    intro s pos acc s1 ph h hmem
    simp only [materialize] at h
    by_cases h1 : next = pos
    · rw [if_pos h1] at h
      exact absurd (congrArg Prod.fst h) (by simp)
    · rw [if_neg h1] at h
      by_cases h2 : validPos next = true
      · rw [if_pos h2] at h
        rcases List.mem_cons.mp hmem with he | hm
        · exact h1 he.symm
        · cases hc : getConcreteCell s.cells next with
          | some cv =>
            rw [hc] at h
            exact ih s pos acc s1 ph h hm
          | none =>
            rw [hc] at h
            exact ih (placeCellState s next emptyCellV) pos (acc ++ [next]) s1 ph h hm
      · rw [if_neg h2] at h
        exact absurd (congrArg Prod.fst h) (by simp)

theorem materialize_preserves_present :
    ∀ (refs : List Pos) (s : SheetState) (pos : Pos) (acc : List Pos)
      (s1 : SheetState) (ph : List Pos) (q : Pos) (cv : CellV),
    materialize s pos refs acc = (none, s1, ph) →
    getConcreteCell s.cells q = some cv → getConcreteCell s1.cells q = some cv := by
  intro refs
  induction refs with
  | nil =>
    intro s pos acc s1 ph q cv h hq
    have hs : s = s1 := congrArg (fun x => x.2.1) h
    rw [← hs]
    exact hq
  | cons next rest ih =>
    intro s pos acc s1 ph q cv h hq
    simp only [materialize] at h
    by_cases h1 : next = pos
    · rw [if_pos h1] at h
      exact absurd (congrArg Prod.fst h) (by simp)
    · rw [if_neg h1] at h
      by_cases h2 : validPos next = true
      · rw [if_pos h2] at h
        cases hc : getConcreteCell s.cells next with
        | some cv2 =>
          rw [hc] at h
          exact ih s pos acc s1 ph q cv h hq
        | none =>
          rw [hc] at h
          have hqn : q ≠ (next.1, next.2) := by
            intro he
            rw [he] at hq
            rw [hq] at hc
            cases hc
          refine ih (placeCellState s next emptyCellV) pos (acc ++ [next]) s1 ph q cv h ?_
          show getConcreteCell (placeGrid s.cells next.1 next.2 emptyCellV) q = some cv
          rw [getCC_place_ne next.1 s.cells next.2 emptyCellV q hqn]
          exact hq
      · rw [if_neg h2] at h
        exact absurd (congrArg Prod.fst h) (by simp)

theorem materialize_phantom :
    ∀ (refs : List Pos) (s : SheetState) (pos : Pos) (acc : List Pos)
      (s1 : SheetState) (ph : List Pos) (r : Pos),
    materialize s pos refs acc = (none, s1, ph) → r ∈ refs →
    getConcreteCell s.cells r = none →
    getConcreteCell s1.cells r = some emptyCellV ∧
      r.1 < s1.psize.1 ∧ r.2 < s1.psize.2 := by
  intro refs
  induction refs with
  | nil => intro s pos acc s1 ph r _ hmem; cases hmem
  | cons next rest ih =>
    intro s pos acc s1 ph r h hmem habs
    simp only [materialize] at h
    by_cases h1 : next = pos
    · rw [if_pos h1] at h
      exact absurd (congrArg Prod.fst h) (by simp)
    · rw [if_neg h1] at h
      by_cases h2 : validPos next = true
      · rw [if_pos h2] at h
        cases hc : getConcreteCell s.cells next with
        | some cv =>
          rw [hc] at h
          rcases List.mem_cons.mp hmem with he | hm
          · rw [he] at habs
            rw [habs] at hc
            cases hc
          · exact ih s pos acc s1 ph r h hm habs
        | none =>
          rw [hc] at h
          have hmm : materialize (placeCellState s next emptyCellV) pos rest (acc ++ [next]) =
              (none, s1, ph) := h
          by_cases hr : r = next
          · have hplaced : getConcreteCell (placeCellState s next emptyCellV).cells r =
                some emptyCellV := by
              rw [hr]
              exact getCC_place_self next.1 s.cells next.2 emptyCellV
            have hkeep := materialize_preserves_present rest
              (placeCellState s next emptyCellV) pos (acc ++ [next]) s1 ph r emptyCellV hmm hplaced
            have hps := materialize_psize rest (placeCellState s next emptyCellV) pos (acc ++ [next])
            rw [hmm] at hps
            refine ⟨hkeep, ?_, ?_⟩
            · have hb : r.1 < (placeCellState s next emptyCellV).psize.1 := by
                show r.1 < max s.psize.1 (next.1 + 1)
                have : r.1 < next.1 + 1 := by rw [hr]; exact Nat.lt_succ_self _
                exact Nat.lt_of_lt_of_le this (Nat.le_max_right _ _)
              exact Nat.lt_of_lt_of_le hb hps.1
            · have hb : r.2 < (placeCellState s next emptyCellV).psize.2 := by
                show r.2 < max s.psize.2 (next.2 + 1)
                have : r.2 < next.2 + 1 := by rw [hr]; exact Nat.lt_succ_self _
                exact Nat.lt_of_lt_of_le this (Nat.le_max_right _ _)
              exact Nat.lt_of_lt_of_le hb hps.2
          · rcases List.mem_cons.mp hmem with he | hm
            · exact absurd he hr
            · refine ih (placeCellState s next emptyCellV) pos (acc ++ [next]) s1 ph r hmm hm ?_
              have hrn : r ≠ (next.1, next.2) := fun he => hr (by rw [he])
              show getConcreteCell (placeGrid s.cells next.1 next.2 emptyCellV) r = none
              rw [getCC_place_ne next.1 s.cells next.2 emptyCellV r hrn]
              exact habs
      · rw [if_neg h2] at h
        exact absurd (congrArg Prod.fst h) (by simp)

/-! ## Helper lemmas: the cache sweep and the shape of a successful SetCell -/

theorem getSlot_resetRow : ∀ (row : Row) (G : DGraph) (pos : Pos) (r c0 i : Nat),
    getSlot (resetRowCaches G pos r c0 row) i =
      if bwdReaches G pos (r, c0 + i) then
        (getSlot row i).map (fun cv => { cv with cache := none })
      else getSlot row i := by
  intro row
  induction row with
  | nil =>
    intro G pos r c0 i
    simp [resetRowCaches, getSlot, ite_self]
  | cons slot rest ih =>
    intro G pos r c0 i
    cases i with
    | zero =>
      show (if bwdReaches G pos (r, c0) then slot.map (fun cv => { cv with cache := none })
            else slot) = _
      rw [Nat.add_zero]
      rfl
    | succ m =>
      show getSlot (resetRowCaches G pos r (c0 + 1) rest) m = _
      rw [ih G pos r (c0 + 1) m]
      have harith : c0 + 1 + m = c0 + (m + 1) := by omega
      rw [harith]
      rfl

theorem getRowOpt_resetGrid : ∀ (cells : Grid) (G : DGraph) (pos : Pos) (r0 j : Nat),
    getRowOpt (resetGridCaches G pos r0 cells) j =
      (getRowOpt cells j).map (fun row => resetRowCaches G pos (r0 + j) 0 row) := by
  intro cells
  induction cells with
  | nil => intro G pos r0 j; rfl
  | cons row rest ih =>
    intro G pos r0 j
    cases j with
    | zero =>
      show some (resetRowCaches G pos r0 0 row) = _
      rw [Nat.add_zero]
      rfl
    | succ m =>
      show getRowOpt (resetGridCaches G pos (r0 + 1) rest) m = _
      rw [ih G pos (r0 + 1) m]
      have harith : r0 + 1 + m = r0 + (m + 1) := by omega
      rw [harith]
      rfl

theorem getCC_resetCaches (s : SheetState) (pos q : Pos) :
    getConcreteCell (resetCachesState s pos).cells q =
      if bwdReaches s.graph pos q then
        (getConcreteCell s.cells q).map (fun cv => { cv with cache := none })
      else getConcreteCell s.cells q := by
  rcases q with ⟨qr, qc⟩
  show getConcreteCell (resetGridCaches s.graph pos 0 s.cells) (qr, qc) = _
  unfold getConcreteCell
  rw [getRowOpt_resetGrid]
  cases hrow : getRowOpt s.cells qr with
  | none => simp [ite_self]
  | some row =>
    show getSlot (resetRowCaches s.graph pos (0 + qr) 0 row) qc = _
    rw [getSlot_resetRow]
    have h1 : (0 : Nat) + qr = qr := Nat.zero_add qr
    have h2 : (0 : Nat) + qc = qc := Nat.zero_add qc
    rw [h1, h2]

theorem setCellAfter_ok_shape {s1 : SheetState} {pos : Pos} {c : Content} {ph : List Pos}
    (h : (setCellAfter s1 pos c ph).1 = none) :
    ∃ s2,
      (setCellAfter s1 pos c ph).2 = placeCellState s2 pos (CellV.mk c none) ∧
      s2.graph = rewire s1.graph pos (oldRefsAt s1 pos) (refsOf c) ∧
      s2.psize = s1.psize ∧
      (∀ q cv, getConcreteCell s1.cells q = some cv →
        ∃ cv2, getConcreteCell s2.cells q = some cv2 ∧ cv2.content = cv.content ∧
          (cv.cache = none → cv2.cache = none)) := by
  unfold setCellAfter at h ⊢
  by_cases hcont : pos ∈ s1.graph.nodes
  · rw [if_pos hcont] at h ⊢
    by_cases hcyc : checkCyclicDependencies
        (rewire s1.graph pos (oldRefsAt s1 pos) (refsOf c)) pos = true
    · rw [if_pos hcyc] at h ⊢
      refine ⟨resetCachesState
        { s1 with graph := rewire s1.graph pos (oldRefsAt s1 pos) (refsOf c) } pos,
        rfl, rfl, rfl, ?_⟩
      intro q cv hq
      rw [getCC_resetCaches]
      by_cases hb : bwdReaches
          ({ s1 with graph := rewire s1.graph pos (oldRefsAt s1 pos) (refsOf c)
           } : SheetState).graph pos q
      · rw [if_pos hb]
        show ∃ cv2, (getConcreteCell s1.cells q).map
            (fun cv => { cv with cache := none }) = some cv2 ∧ _
        rw [hq]
        exact ⟨{ cv with cache := none }, rfl, rfl, fun _ => rfl⟩
      · rw [if_neg hb]
        show ∃ cv2, getConcreteCell s1.cells q = some cv2 ∧ _
        rw [hq]
        exact ⟨cv, rfl, rfl, fun hc => hc⟩
    · rw [if_neg hcyc] at h
      exact absurd h (by simp)
  · rw [if_neg hcont] at h ⊢
    exact ⟨{ s1 with graph := rewire s1.graph pos (oldRefsAt s1 pos) (refsOf c) },
      rfl, rfl, rfl, fun q cv hq => ⟨cv, hq, rfl, fun hc => hc⟩⟩

theorem setCell_ok_shape {s : SheetState} {pos : Pos} {c : Content}
    (h : (setCell s pos c).1 = none) :
    ∃ s1 ph s2,
      materialize s pos (refsOf c) [] = (none, s1, ph) ∧
      (setCell s pos c).2 = placeCellState s2 pos (CellV.mk c none) ∧
      s2.graph = rewire s1.graph pos (oldRefsAt s1 pos) (refsOf c) ∧
      s2.psize = s1.psize ∧
      (∀ q cv, getConcreteCell s1.cells q = some cv →
        ∃ cv2, getConcreteCell s2.cells q = some cv2 ∧ cv2.content = cv.content ∧
          (cv.cache = none → cv2.cache = none)) := by
  by_cases hv : validPos pos = true
  · unfold setCell at h
    rw [if_pos hv] at h
    rcases hmat : materialize s pos (refsOf c) [] with ⟨e, s1, ph⟩
    rw [hmat] at h
    cases e with
    | some err => exact absurd h (by simp)
    | none =>
      have h2 : (setCellAfter s1 pos c ph).1 = none := h
      have hgoal : (setCell s pos c).2 = (setCellAfter s1 pos c ph).2 := by
        unfold setCell
        rw [if_pos hv, hmat]
      rcases setCellAfter_ok_shape h2 with ⟨s2, hplace, hrew, hps, hcells⟩
      exact ⟨s1, ph, s2, rfl, hgoal.trans hplace, hrew, hps, hcells⟩
  · unfold setCell at h
    rw [if_neg hv] at h
    exact absurd h (by simp)

theorem setCell_ok_cell {s : SheetState} {pos : Pos} {c : Content}
    (h : (setCell s pos c).1 = none) :
    getConcreteCell (setCell s pos c).2.cells pos = some (CellV.mk c none) := by
  rcases setCell_ok_shape h with ⟨s1, ph, s2, _, hplace, _, _, _⟩
  rw [hplace]
  exact getCC_place_self pos.1 s2.cells pos.2 (CellV.mk c none)

theorem materialize_self_err :
    ∀ (refs : List Pos) (s : SheetState) (pos : Pos) (acc : List Pos),
    pos ∈ refs → (∀ r ∈ refs, validPos r = true) →
    (materialize s pos refs acc).1 = some SErr.circular := by
  intro refs
  induction refs with
  | nil => intro s pos acc hmem; cases hmem
  | cons next rest ih =>
    intro s pos acc hmem hval
    simp only [materialize]
    by_cases h1 : next = pos
    · rw [if_pos h1]
    · rw [if_neg h1]
      have hpm : pos ∈ rest := by
        rcases List.mem_cons.mp hmem with he | hm
        · exact absurd he.symm h1
        · exact hm
      have hvrest : ∀ r ∈ rest, validPos r = true :=
        fun r hr => hval r (List.mem_cons_of_mem next hr)
      rw [if_pos (hval next (List.mem_cons_self next rest))]
      cases hc : getConcreteCell s.cells next with
      | some cv => exact ih s pos acc hpm hvrest
      | none => exact ih (placeCellState s next emptyCellV) pos (acc ++ [next]) hpm hvrest

/-- C2 amended.  When the new content references pos itself (and its
references are valid positions), SetCell fails with circular-dependency
before any graph change: no node or edge is added, and the cell at pos is
untouched (so if pos held no cell, it still holds none).  However, phantom
Empty cells materialized for references processed before pos in the
reference order persist in the grid (see the counterexample). -/
theorem c2_self_reference_amended (s : SheetState) (pos : Pos) (c : Content)
    (hv : validPos pos = true) (hr : ∀ r ∈ refsOf c, validPos r = true)
    (hp : pos ∈ refsOf c) :
    (setCell s pos c).1 = some SErr.circular ∧
    (setCell s pos c).2.graph = s.graph ∧
    getConcreteCell (setCell s pos c).2.cells pos = getConcreteCell s.cells pos := by
  have herr := materialize_self_err (refsOf c) s pos [] hp hr
  have hgr := materialize_graph (refsOf c) s pos []
  have hcell := materialize_cell_at_pos (refsOf c) s pos []
  unfold setCell
  rw [if_pos hv]
  rcases hmat : materialize s pos (refsOf c) [] with ⟨e, s1, ph⟩
  rw [hmat] at herr hgr hcell
  have he : e = some SErr.circular := herr
  subst he
  exact ⟨rfl, hgr, hcell⟩

/-- C2 amended witness: SetCell((0,0), formula referencing (0,0)) on the
empty sheet. -/
theorem c2_self_reference_amended_witness :
    (setCell emptySheet (0, 0) (Content.formula (Expr.ref (0, 0)))).1 = some SErr.circular ∧
    (setCell emptySheet (0, 0) (Content.formula (Expr.ref (0, 0)))).2.graph =
      emptySheet.graph ∧
    getConcreteCell (setCell emptySheet (0, 0)
      (Content.formula (Expr.ref (0, 0)))).2.cells (0, 0) =
      getConcreteCell emptySheet.cells (0, 0) :=
  c2_self_reference_amended emptySheet (0, 0) (Content.formula (Expr.ref (0, 0)))
    (by decide) (by decide) (by decide)

/-- C7.  For every successful SetCell whose content references an absent
slot r, an Empty cell is materialized at r and persists: GetCell(r) is the
Empty cell, whose GetText is empty and whose GetValue is the empty string,
and the printable size grows to include r.  On the concrete spec scenario,
SetCell(A1, ref Z9) on the empty sheet succeeds, GetValue(A1) is 0 (the
empty referent coerces to 0 in the modelled AST evaluation), and the
printable size becomes (9, 26). -/
theorem c7_phantom_materialization :
    (∀ (s : SheetState) (pos : Pos) (c : Content) (r : Pos),
      (setCell s pos c).1 = none → r ∈ refsOf c →
      getConcreteCell s.cells r = none →
      getConcreteCell (setCell s pos c).2.cells r = some emptyCellV ∧
        cellGetText emptyCellV = "" ∧
        (getCellValue 1 (setCell s pos c).2.cells r).1 = Value.s "" ∧
        r.1 < (setCell s pos c).2.psize.1 ∧ r.2 < (setCell s pos c).2.psize.2) ∧
    ((setCell emptySheet (0, 0) (Content.formula (Expr.ref (8, 25)))).1 = none ∧
      (getCellValue 9 (setCell emptySheet (0, 0)
        (Content.formula (Expr.ref (8, 25)))).2.cells (0, 0)).1 = Value.n 0 ∧
      (setCell emptySheet (0, 0) (Content.formula (Expr.ref (8, 25)))).2.psize = (9, 26)) := by
  constructor
  · intro s pos c r hok href habs
    rcases setCell_ok_shape hok with ⟨s1, ph, s2, hmat, hplace, hrew, hps, hcells⟩
    have hnp : pos ∉ refsOf c := materialize_not_pos (refsOf c) s pos [] s1 ph hmat
    have hrp : r ≠ pos := fun he => hnp (he ▸ href)
    have hph := materialize_phantom (refsOf c) s pos [] s1 ph r hmat href habs
    rcases hcells r emptyCellV hph.1 with ⟨cv2, hcv2, hcont, hcache⟩
    have hcv2e : cv2 = emptyCellV := by
      rcases cv2 with ⟨ct, ca⟩
      have h1 : ct = Content.empty := hcont
      have h2 : ca = none := hcache rfl
      rw [h1, h2]
      rfl
    rw [hcv2e] at hcv2
    have hrp2 : r ≠ (pos.1, pos.2) := fun he => hrp (by rw [he])
    have hgot : getConcreteCell (setCell s pos c).2.cells r = some emptyCellV := by
      rw [hplace]
      show getConcreteCell (placeGrid s2.cells pos.1 pos.2 (CellV.mk c none)) r = _
      rw [getCC_place_ne pos.1 s2.cells pos.2 (CellV.mk c none) r hrp2]
      exact hcv2
    refine ⟨hgot, rfl, ?_, ?_, ?_⟩
    · unfold getCellValue
      rw [hgot]
      rfl
    · rw [hplace]
      show r.1 < max s2.psize.1 (pos.1 + 1)
      rw [hps]
      exact Nat.lt_of_lt_of_le hph.2.1 (Nat.le_max_left _ _)
    · rw [hplace]
      show r.2 < max s2.psize.2 (pos.2 + 1)
      rw [hps]
      exact Nat.lt_of_lt_of_le hph.2.2 (Nat.le_max_left _ _)
  · refine ⟨by decide, by decide, by decide⟩

/-- C7 witness: the universal part applied at the Z9 scenario. -/
theorem c7_phantom_materialization_witness :
    getConcreteCell (setCell emptySheet (0, 0)
      (Content.formula (Expr.ref (8, 25)))).2.cells (8, 25) = some emptyCellV ∧
    cellGetText emptyCellV = "" ∧
    (getCellValue 1 (setCell emptySheet (0, 0)
      (Content.formula (Expr.ref (8, 25)))).2.cells (8, 25)).1 = Value.s "" ∧
    (8 : Nat) < (setCell emptySheet (0, 0)
      (Content.formula (Expr.ref (8, 25)))).2.psize.1 ∧
    (25 : Nat) < (setCell emptySheet (0, 0)
      (Content.formula (Expr.ref (8, 25)))).2.psize.2 :=
  c7_phantom_materialization.1 emptySheet (0, 0) (Content.formula (Expr.ref (8, 25)))
    (8, 25) (by decide) (by decide) (by decide)

/-- C8.  After a successful SetCell, the stored cell's GetText is the
canonical text of the input: empty input gives the empty text, a text whose
first character is FORMULA_SIGN with length above one gives FORMULA_SIGN
followed by the canonical print of the parsed AST, and any other text is
stored verbatim. -/
theorem c8_getText_canonical (s : SheetState) (p : Pos) (parse : String → Expr) (t : String)
    (h : (setCell s p (cellSet parse t)).1 = none) :
    ∃ cv, getConcreteCell (setCell s p (cellSet parse t)).2.cells p = some cv ∧
      cellGetText cv =
        (if t = "" then ""
         else if t.data.head? = some FORMULA_SIGN ∧ 1 < t.length then
           FORMULA_SIGN.toString ++ printExpr (parse (t.drop 1))
         else t) := by
  refine ⟨CellV.mk (cellSet parse t) none, setCell_ok_cell h, ?_⟩
  show contentGetText (cellSet parse t) = _
  unfold cellSet
  by_cases h1 : t = ""
  · rw [if_pos h1, if_pos h1]
    rfl
  · rw [if_neg h1, if_neg h1]
    by_cases h2 : t.data.head? = some FORMULA_SIGN ∧ 1 < t.length
    · rw [if_pos h2, if_pos h2]
      rfl
    · rw [if_neg h2, if_neg h2]
      rfl

/-- C8 witness: a formula text with a stub parse function. -/
theorem c8_getText_canonical_witness :
    ∃ cv, getConcreteCell (setCell emptySheet (0, 0)
        (cellSet (fun _ => Expr.num 3) "=12")).2.cells (0, 0) = some cv ∧
      cellGetText cv =
        (if ("=12" : String) = "" then ""
         else if ("=12" : String).data.head? = some FORMULA_SIGN ∧
             1 < ("=12" : String).length then
           FORMULA_SIGN.toString ++ printExpr ((fun _ => Expr.num 3) (("=12" : String).drop 1))
         else "=12") :=
  c8_getText_canonical emptySheet (0, 0) (fun _ => Expr.num 3) "=12" (by decide)

/-! ## Helper lemmas: the graph rewiring of SetCell -/

theorem removeDeps_nodes : ∀ (L : List Pos) (G : DGraph) (pos : Pos),
    (removeDeps G pos L).nodes = G.nodes := by
  intro L
  induction L with
  | nil => intro G pos; rfl
  | cons r rest ih =>
    intro G pos
    show (removeDeps (removeDependency G pos r) pos rest).nodes = G.nodes
    rw [ih (removeDependency G pos r) pos, removeDependency_nodes]

theorem removeDeps_fwd_ne : ∀ (L : List Pos) (G : DGraph) (pos x : Pos), x ≠ pos →
    (removeDeps G pos L).fwd x = G.fwd x := by
  intro L
  induction L with
  | nil => intro G pos x _; rfl
  | cons r rest ih =>
    intro G pos x hx
    show (removeDeps (removeDependency G pos r) pos rest).fwd x = G.fwd x
    rw [ih (removeDependency G pos r) pos x hx]
    unfold removeDependency
    by_cases hg : pos ∈ G.nodes ∧ r ∈ G.nodes
    · rw [if_pos hg]
      show fnUpdate G.fwd pos (serase r (G.fwd pos)) x = G.fwd x
      unfold fnUpdate
      rw [if_neg hx]
    · rw [if_neg hg]

theorem removeDeps_fwd_pos : ∀ (L : List Pos) (G : DGraph) (pos : Pos),
    pos ∈ G.nodes → (∀ r ∈ L, r ∈ G.nodes) →
    ∀ b, b ∈ (removeDeps G pos L).fwd pos ↔ b ∈ G.fwd pos ∧ b ∉ L := by
  intro L
  induction L with
  | nil =>
    intro G pos _ _ b
    simp [removeDeps]
  | cons r rest ih =>
    intro G pos hpos hL b
    have hg1 := hpos
    have hg2 := hL r (List.mem_cons_self r rest)
    have hpos2 : pos ∈ (removeDependency G pos r).nodes := by
      rw [removeDependency_nodes]; exact hpos
    have hL2 : ∀ q ∈ rest, q ∈ (removeDependency G pos r).nodes := by
      intro q hq
      rw [removeDependency_nodes]
      exact hL q (List.mem_cons_of_mem r hq)
    show b ∈ (removeDeps (removeDependency G pos r) pos rest).fwd pos ↔ _
    rw [ih (removeDependency G pos r) pos hpos2 hL2 b, removeDependency_fwd]
    constructor
    · rintro ⟨⟨hm, hnc⟩, hnr⟩
      refine ⟨hm, ?_⟩
      intro hmem
      rcases List.mem_cons.mp hmem with he | hm2
      · exact hnc ⟨hg1, hg2, rfl, he⟩
      · exact hnr hm2
    · rintro ⟨hm, hnm⟩
      refine ⟨⟨hm, fun hc => hnm (by rw [hc.2.2.2]; exact List.mem_cons_self r rest)⟩,
        fun hm2 => hnm (List.mem_cons_of_mem r hm2)⟩

theorem readdOld_nodes : ∀ (L : List Pos) (G : DGraph) (pos x : Pos),
    x ∈ (readdOld G pos L).nodes ↔ x ∈ G.nodes ∨ x ∈ L := by
  intro L
  induction L with
  | nil =>
    intro G pos x
    simp [readdOld]
  | cons r rest ih =>
    intro G pos x
    show x ∈ (readdOld (addDependency (addCell G r) pos r) pos rest).nodes ↔ _
    rw [ih (addDependency (addCell G r) pos r) pos x, addDependency_nodes, addCell_nodes,
      List.mem_cons]
    tauto

theorem readdOld_fwd_pos : ∀ (L : List Pos) (G : DGraph) (pos : Pos), pos ∈ G.nodes →
    ∀ b, b ∈ (readdOld G pos L).fwd pos ↔ b ∈ G.fwd pos ∨ b ∈ L := by
  intro L
  induction L with
  | nil =>
    intro G pos _ b
    simp [readdOld]
  | cons r rest ih =>
    intro G pos hpos b
    have hposA : pos ∈ (addCell G r).nodes := addCell_nodes.mpr (Or.inr hpos)
    have hrA : r ∈ (addCell G r).nodes := addCell_nodes.mpr (Or.inl rfl)
    have hpos2 : pos ∈ (addDependency (addCell G r) pos r).nodes := by
      rw [addDependency_nodes]; exact hposA
    show b ∈ (readdOld (addDependency (addCell G r) pos r) pos rest).fwd pos ↔ _
    rw [ih (addDependency (addCell G r) pos r) pos hpos2 b, addDependency_fwd, addCell_fwd]
    constructor
    · rintro ((⟨_, _, _, hbr⟩ | ⟨hm, _⟩) | hrest)
      · rw [hbr]
        exact Or.inr (List.mem_cons_self r rest)
      · exact Or.inl hm
      · exact Or.inr (List.mem_cons_of_mem r hrest)
    · rintro (hm | hmem)
      · refine Or.inl (Or.inr ⟨hm, ?_⟩)
        rintro ⟨hrn, hpr⟩
        exact hrn (hpr ▸ hpos)
      · rcases List.mem_cons.mp hmem with he | hm2
        · exact Or.inl (Or.inl ⟨hposA, hrA, rfl, he⟩)
        · exact Or.inr hm2

theorem readdOld_fwd_ne : ∀ (L : List Pos) (G : DGraph) (pos x : Pos),
    pos ∈ G.nodes → x ≠ pos →
    ∀ b, b ∈ (readdOld G pos L).fwd x ↔ b ∈ G.fwd x ∧ ¬(x ∉ G.nodes ∧ x ∈ L) := by
  intro L
  induction L with
  | nil =>
    intro G pos x _ _ b
    simp [readdOld]
  | cons r rest ih =>
    intro G pos x hpos hx b
    have hposA : pos ∈ (addCell G r).nodes := addCell_nodes.mpr (Or.inr hpos)
    have hpos2 : pos ∈ (addDependency (addCell G r) pos r).nodes := by
      rw [addDependency_nodes]; exact hposA
    show b ∈ (readdOld (addDependency (addCell G r) pos r) pos rest).fwd x ↔ _
    rw [ih (addDependency (addCell G r) pos r) pos x hpos2 hx b, addDependency_fwd,
      addCell_fwd]
    simp only [addDependency_nodes, addCell_nodes, List.mem_cons]
    by_cases hxr : x = r
    · have hnn : (x ∈ G.nodes) ↔ (r ∈ G.nodes) := by rw [hxr]
      tauto
    · tauto

theorem rewire_nodes (G : DGraph) (pos : Pos) (RO RN : List Pos) (x : Pos) :
    x ∈ (rewire G pos RO RN).nodes ↔ x ∈ G.nodes ∨ x = pos ∨ x ∈ RN := by
  unfold rewire
  rw [readdOld_nodes, addCell_nodes]
  by_cases hc : pos ∈ G.nodes
  · rw [if_pos hc, removeDeps_nodes]
    tauto
  · rw [if_neg hc]
    tauto

theorem rewire_fwd_pos (G : DGraph) (pos : Pos) (RO RN : List Pos)
    (hA : pos ∈ G.nodes → ∀ b, (b ∈ G.fwd pos ↔ b ∈ RO))
    (hC : pos ∈ G.nodes → ∀ r ∈ RO, r ∈ G.nodes) :
    ∀ b, b ∈ (rewire G pos RO RN).fwd pos ↔ b ∈ RN := by
  intro b
  unfold rewire
  by_cases hc : pos ∈ G.nodes
  · rw [if_pos hc]
    have hposMid : pos ∈ (addCell (removeDeps G pos RO) pos).nodes :=
      addCell_nodes.mpr (Or.inl rfl)
    rw [readdOld_fwd_pos RN (addCell (removeDeps G pos RO) pos) pos hposMid b, addCell_fwd,
      removeDeps_fwd_pos RO G pos hc (hC hc) b]
    constructor
    · rintro (⟨⟨hm, hnRO⟩, _⟩ | hRN)
      · exact absurd ((hA hc b).mp hm) hnRO
      · exact hRN
    · exact fun hRN => Or.inr hRN
  · rw [if_neg hc]
    have hposMid : pos ∈ (addCell G pos).nodes := addCell_nodes.mpr (Or.inl rfl)
    rw [readdOld_fwd_pos RN (addCell G pos) pos hposMid b, addCell_fwd]
    constructor
    · rintro (⟨_, hcond⟩ | hRN)
      · exact absurd ⟨hc, rfl⟩ hcond
      · exact hRN
    · exact fun hRN => Or.inr hRN

theorem rewire_fwd_ne (G : DGraph) (pos : Pos) (RO RN : List Pos) (x : Pos) (hx : x ≠ pos) :
    ∀ b, b ∈ (rewire G pos RO RN).fwd x ↔ b ∈ G.fwd x ∧ ¬(x ∉ G.nodes ∧ x ∈ RN) := by
  intro b
  unfold rewire
  by_cases hc : pos ∈ G.nodes
  · rw [if_pos hc]
    have hposMid : pos ∈ (addCell (removeDeps G pos RO) pos).nodes :=
      addCell_nodes.mpr (Or.inl rfl)
    rw [readdOld_fwd_ne RN (addCell (removeDeps G pos RO) pos) pos x hposMid hx b,
      addCell_fwd, addCell_nodes, removeDeps_fwd_ne RO G pos x hx, removeDeps_nodes]
    constructor
    · rintro ⟨⟨hm, _⟩, hcond⟩
      refine ⟨hm, ?_⟩
      rintro ⟨hxn, hxRN⟩
      refine hcond ⟨?_, hxRN⟩
      rintro (he | hn)
      · exact hx he
      · exact hxn hn
    · rintro ⟨hm, hcond⟩
      refine ⟨⟨hm, fun hc2 => hx hc2.2⟩, ?_⟩
      rintro ⟨hnor, hxRN⟩
      exact hcond ⟨fun hn => hnor (Or.inr hn), hxRN⟩
  · rw [if_neg hc]
    have hposMid : pos ∈ (addCell G pos).nodes := addCell_nodes.mpr (Or.inl rfl)
    rw [readdOld_fwd_ne RN (addCell G pos) pos x hposMid hx b, addCell_fwd, addCell_nodes]
    constructor
    · rintro ⟨⟨hm, _⟩, hcond⟩
      refine ⟨hm, ?_⟩
      rintro ⟨hxn, hxRN⟩
      refine hcond ⟨?_, hxRN⟩
      rintro (he | hn)
      · exact hx he
      · exact hxn hn
    · rintro ⟨hm, hcond⟩
      refine ⟨⟨hm, fun hc2 => hx hc2.2⟩, ?_⟩
      rintro ⟨hnor, hxRN⟩
      exact hcond ⟨fun hn => hnor (Or.inr hn), hxRN⟩

set_option maxHeartbeats 1600000 in
/-- C5 amended.  Starting from a pre-state whose forward adjacency at pos
agrees with the stored cell at pos and stays inside the node set (as holds
in any state not already corrupted by the rollback defect of C1), two
successive successful SetCell calls at pos with contents c1 then c2 leave
the dependency graph with the same edge set as a single successful
SetCell(pos, c2); the node sets may differ, because nodes created for the
referents of c1 persist (the sheet never removes graph nodes). -/
theorem c5_edge_set_overwrite (s : SheetState) (pos : Pos) (c1 c2 : Content)
    (hA : pos ∈ s.graph.nodes → ∀ b, (b ∈ s.graph.fwd pos ↔ b ∈ oldRefsAt s pos))
    (hC : pos ∈ s.graph.nodes → ∀ r ∈ oldRefsAt s pos, r ∈ s.graph.nodes)
    (h1 : (setCell s pos c1).1 = none)
    (h2 : (setCell (setCell s pos c1).2 pos c2).1 = none)
    (h3 : (setCell s pos c2).1 = none) :
    ∀ a b, edgeIn (setCell (setCell s pos c1).2 pos c2).2.graph a b ↔
      edgeIn (setCell s pos c2).2.graph a b := by
  rcases setCell_ok_shape h1 with ⟨m1, ph1, t1, hmat1, hplace1, hrew1, hu1a, hu1b⟩
  rcases setCell_ok_shape h2 with ⟨m2, ph2, t2, hmat2, hplace2, hrew2, hu2a, hu2b⟩
  rcases setCell_ok_shape h3 with ⟨m3, ph3, t3, hmat3, hplace3, hrew3, hu3a, hu3b⟩
  have hmg1 : m1.graph = s.graph := by
    have h := materialize_graph (refsOf c1) s pos []
    rw [hmat1] at h
    exact h
  have hor1 : oldRefsAt m1 pos = oldRefsAt s pos := by
    have h := materialize_cell_at_pos (refsOf c1) s pos []
    rw [hmat1] at h
    unfold oldRefsAt
    rw [h]
  have hG1 : (setCell s pos c1).2.graph =
      rewire s.graph pos (oldRefsAt s pos) (refsOf c1) := by
    rw [hplace1]
    show t1.graph = _
    rw [hrew1, hmg1, hor1]
  have hcell1 : getConcreteCell (setCell s pos c1).2.cells pos = some (CellV.mk c1 none) :=
    setCell_ok_cell h1
  have hmg2 : m2.graph = (setCell s pos c1).2.graph := by
    have h := materialize_graph (refsOf c2) (setCell s pos c1).2 pos []
    rw [hmat2] at h
    exact h
  have hor2 : oldRefsAt m2 pos = refsOf c1 := by
    have h := materialize_cell_at_pos (refsOf c2) (setCell s pos c1).2 pos []
    rw [hmat2] at h
    unfold oldRefsAt
    rw [h, hcell1]
  have hG2 : (setCell (setCell s pos c1).2 pos c2).1 = (setCell (setCell s pos c1).2 pos c2).1 := rfl
  have hG2g : (setCell (setCell s pos c1).2 pos c2).2.graph =
      rewire (rewire s.graph pos (oldRefsAt s pos) (refsOf c1)) pos
        (refsOf c1) (refsOf c2) := by
    rw [hplace2]
    show t2.graph = _
    rw [hrew2, hmg2, hor2, hG1]
  have hmg3 : m3.graph = s.graph := by
    have h := materialize_graph (refsOf c2) s pos []
    rw [hmat3] at h
    exact h
  have hor3 : oldRefsAt m3 pos = oldRefsAt s pos := by
    have h := materialize_cell_at_pos (refsOf c2) s pos []
    rw [hmat3] at h
    unfold oldRefsAt
    rw [h]
  have hG3g : (setCell s pos c2).2.graph =
      rewire s.graph pos (oldRefsAt s pos) (refsOf c2) := by
    rw [hplace3]
    show t3.graph = _
    rw [hrew3, hmg3, hor3]
  have hG1nodes : ∀ x, x ∈ (rewire s.graph pos (oldRefsAt s pos) (refsOf c1)).nodes ↔
      x ∈ s.graph.nodes ∨ x = pos ∨ x ∈ refsOf c1 :=
    fun x => rewire_nodes s.graph pos (oldRefsAt s pos) (refsOf c1) x
  have hG1fwdpos : ∀ b, b ∈ (rewire s.graph pos (oldRefsAt s pos) (refsOf c1)).fwd pos ↔
      b ∈ refsOf c1 := rewire_fwd_pos s.graph pos (oldRefsAt s pos) (refsOf c1) hA hC
  have hA1 : pos ∈ (rewire s.graph pos (oldRefsAt s pos) (refsOf c1)).nodes →
      ∀ b, (b ∈ (rewire s.graph pos (oldRefsAt s pos) (refsOf c1)).fwd pos ↔
        b ∈ refsOf c1) := fun _ => hG1fwdpos
  have hC1 : pos ∈ (rewire s.graph pos (oldRefsAt s pos) (refsOf c1)).nodes →
      ∀ r ∈ refsOf c1, r ∈ (rewire s.graph pos (oldRefsAt s pos) (refsOf c1)).nodes :=
    fun _ r hr => (hG1nodes r).mpr (Or.inr (Or.inr hr))
  intro a b
  unfold edgeIn
  rw [hG2g, hG3g]
  by_cases hap : a = pos
  · rw [hap]
    constructor
    · rintro ⟨_, hf⟩
      refine ⟨(rewire_nodes s.graph pos (oldRefsAt s pos) (refsOf c2) pos).mpr
        (Or.inr (Or.inl rfl)), ?_⟩
      exact (rewire_fwd_pos s.graph pos (oldRefsAt s pos) (refsOf c2) hA hC b).mpr
        ((rewire_fwd_pos (rewire s.graph pos (oldRefsAt s pos) (refsOf c1)) pos
          (refsOf c1) (refsOf c2) hA1 hC1 b).mp hf)
    · rintro ⟨_, hf⟩
      refine ⟨(rewire_nodes (rewire s.graph pos (oldRefsAt s pos) (refsOf c1)) pos
        (refsOf c1) (refsOf c2) pos).mpr (Or.inr (Or.inl rfl)), ?_⟩
      exact (rewire_fwd_pos (rewire s.graph pos (oldRefsAt s pos) (refsOf c1)) pos
        (refsOf c1) (refsOf c2) hA1 hC1 b).mpr
        ((rewire_fwd_pos s.graph pos (oldRefsAt s pos) (refsOf c2) hA hC b).mp hf)
  · have hf2 := rewire_fwd_ne (rewire s.graph pos (oldRefsAt s pos) (refsOf c1)) pos
      (refsOf c1) (refsOf c2) a hap b
    have hf1 := rewire_fwd_ne s.graph pos (oldRefsAt s pos) (refsOf c1) a hap b
    have hf3 := rewire_fwd_ne s.graph pos (oldRefsAt s pos) (refsOf c2) a hap b
    have hn2 := rewire_nodes (rewire s.graph pos (oldRefsAt s pos) (refsOf c1)) pos
      (refsOf c1) (refsOf c2) a
    have hn1 := hG1nodes a
    have hn3 := rewire_nodes s.graph pos (oldRefsAt s pos) (refsOf c2) a
    rw [hf2, hf3, hn2, hn3, hf1, hn1]
    by_cases haN : a ∈ s.graph.nodes
    · simp [haN]
    · by_cases haR1 : a ∈ refsOf c1
      · by_cases haR2 : a ∈ refsOf c2
        · simp [haN, haR1, haR2, hap]
        · simp [haN, haR1, haR2, hap]
      · by_cases haR2 : a ∈ refsOf c2
        · simp [haN, haR1, haR2, hap]
        · simp [haN, haR1, haR2, hap]

/-- C5 amended witness: the two-call and one-call runs from the empty
sheet, compared at a concrete edge. -/
theorem c5_edge_set_overwrite_witness :
    edgeIn (setCell (setCell emptySheet (0, 0) (Content.formula (Expr.ref (0, 1)))).2
      (0, 0) (Content.formula (Expr.ref (0, 2)))).2.graph (0, 0) (0, 2) ↔
    edgeIn (setCell emptySheet (0, 0) (Content.formula (Expr.ref (0, 2)))).2.graph
      (0, 0) (0, 2) :=
  c5_edge_set_overwrite emptySheet (0, 0) (Content.formula (Expr.ref (0, 1)))
    (Content.formula (Expr.ref (0, 2)))
    (fun h => absurd h (List.not_mem_nil (0, 0)))
    (fun h => absurd h (List.not_mem_nil (0, 0)))
    (by decide) (by decide) (by decide) (0, 0) (0, 2)
